import Mathlib

/-!
Shallow embedding of the cinema domain model of this repository:
`src/src/film.py` (ScreeningTime, Film screening scheduling and promotions)
and `src/zaliczeniowy/src/cinema.py` (Hall, Cinema reservation ledger,
JSON persistence).

Modelling conventions:
* `datetime` instants are modelled as `Int` (minutes on some absolute axis);
  `timedelta(minutes=d)` is addition of `d`.  `datetime.isoformat` is an
  injective function of the instant, so the `(hall, start.isoformat())`
  ledger key is modelled as the pair `(hall, start)`.
* Python exceptions become an explicit error type `CinemaError`; each
  method that can raise returns `Except CinemaError α`.  The Python
  classes `ValidationError`, `ReservationError`, `ScheduleConflictError`
  (from `src/src/exceptions.py`) all derive directly from `Exception`,
  and in particular `ValidationError` is *not* a `ValueError`; the model
  keeps every relevant exception class as a distinct constructor.
* Python `dict` is modelled as an association list in insertion order:
  assignment to an existing key updates the value in place, assignment to
  a fresh key appends, deletion removes the entry.
-/

set_option autoImplicit false

deriving instance DecidableEq for Except

namespace Cinema

/-- The exception classes that the cinema code raises or catches.
`validationError`, `reservationError`, `scheduleConflictError` are the
classes of `src/src/exceptions.py`; `valueError`, `keyError`, `typeError`,
`osError`, `jsonDecodeError` are the Python builtins; `ioError` is the
`IOError` (= `OSError`) that `Cinema.save`/`Cinema.load` re-raise. -/
inductive CinemaError where
  | validationError
  | reservationError
  | scheduleConflictError
  | valueError
  | keyError
  | typeError
  | osError
  | jsonDecodeError
  | ioError
  deriving DecidableEq, Repr

/-- `ScreeningTime` of `src/src/film.py`: a start instant and a hall
number, compared by value `(start, hall)`. -/
structure ScreeningTime where
  start : Int
  hall : Int
  deriving DecidableEq, Repr

/-- Constructor validation of `ScreeningTime.__init__`: the start must be
strictly in the future (`now` is the ambient current instant) and the hall
number positive. -/
def ScreeningTime.make (now : Int) (start : Int) (hall : Int) :
    Except CinemaError ScreeningTime :=
  if start ≤ now then .error .validationError
  else if hall ≤ 0 then .error .validationError
  else .ok ⟨start, hall⟩

/-! ### Python dict as an association list -/

/-- `d.get(k)` / `d[k]` lookup: first entry with the given key. -/
def dictGet {κ ν : Type} [DecidableEq κ] (k : κ) :
    List (κ × ν) → Option ν
  | [] => none
  | kv :: rest => if kv.1 = k then some kv.2 else dictGet k rest

/-- `d[k] = v`: update the first entry with key `k` in place, or append a
fresh entry, exactly as a Python dict keeps insertion order. -/
def dictSet {κ ν : Type} [DecidableEq κ] (k : κ) (v : ν) :
    List (κ × ν) → List (κ × ν)
  | [] => [(k, v)]
  | kv :: rest => if kv.1 = k then (k, v) :: rest else kv :: dictSet k v rest

/-- `del d[k]`: remove the entry with key `k` (first occurrence). -/
def dictDel {κ ν : Type} [DecidableEq κ] (k : κ) :
    List (κ × ν) → List (κ × ν)
  | [] => []
  | kv :: rest => if kv.1 = k then rest else kv :: dictDel k rest

/-- The keys of an association list are pairwise distinct; every dict
built by `dictSet`/`dictDel` from `[]` satisfies this. -/
def keysNodup {κ ν : Type} (d : List (κ × ν)) : Prop :=
  (d.map Prod.fst).Nodup

instance {κ ν : Type} [DecidableEq κ] (d : List (κ × ν)) :
    Decidable (keysNodup d) := by
  unfold keysNodup; infer_instance

/-! ### Film: screening scheduling (`src/src/film.py`) -/

/-- The conflict test of `Film.add_screening` for one `existing` screening,
verbatim from the source: same hall, and
`existing.start <= screening.start < existing_end or
 existing.start < screening_end <= existing_end or
 (screening.start <= existing.start and screening_end >= existing_end)`
where both ends are `start + duration`. -/
def conflicts (duration : Int) (existing screening : ScreeningTime) : Prop :=
  existing.hall = screening.hall ∧
    ((existing.start ≤ screening.start ∧
        screening.start < existing.start + duration) ∨
     (existing.start < screening.start + duration ∧
        screening.start + duration ≤ existing.start + duration) ∨
     (screening.start ≤ existing.start ∧
        screening.start + duration ≥ existing.start + duration))

instance (duration : Int) (existing screening : ScreeningTime) :
    Decidable (conflicts duration existing screening) := by
  unfold conflicts; infer_instance

/-- The comparison key of the `self.screenings.sort(key=lambda s: s.start)`
call: ascending start times. -/
def startLE (a b : ScreeningTime) : Prop := a.start ≤ b.start

instance : DecidableRel startLE := fun a b => by
  unfold startLE; infer_instance

instance : IsTotal ScreeningTime startLE :=
  ⟨fun a b => Int.le_total a.start b.start⟩

instance : IsTrans ScreeningTime startLE :=
  ⟨fun _ _ _ hab hbc => le_trans hab hbc⟩

/-- `list.sort(key=lambda s: s.start)`: a stable sort by ascending start.
`List.insertionSort` with the total preorder `startLE` is stable, like
Python's sort. -/
def sortByStart (l : List ScreeningTime) : List ScreeningTime :=
  l.insertionSort startLE

/-- `Film.add_screening` acting on the film's screenings list (`duration`
is the film's duration in minutes): reject an exact duplicate with
`ValidationError`, reject a same-hall overlap with `ScheduleConflictError`,
otherwise append and re-sort by start. -/
def addScreening (duration : Int) (screenings : List ScreeningTime)
    (s : ScreeningTime) : Except CinemaError (List ScreeningTime) :=
  if s ∈ screenings then .error .validationError
  else if screenings.any (fun e => decide (conflicts duration e s)) then
    .error .scheduleConflictError
  else .ok (sortByStart (screenings ++ [s]))

/-- Run a sequence of `add_screening` calls in order; any raised error
aborts the sequence. -/
def addScreenings (duration : Int) :
    List ScreeningTime → List ScreeningTime →
      Except CinemaError (List ScreeningTime)
  | screenings, [] => .ok screenings
  | screenings, s :: rest =>
    match addScreening duration screenings s with
    | .ok screenings' => addScreenings duration screenings' rest
    | .error e => .error e

/-- A promotion as consumed by `Film.apply_promotion`
(`src/src/promotions.py`): only its identity and expiry matter here. -/
structure CinemaPromotion where
  name : String
  expiresAt : Int
  deriving DecidableEq, Repr

/-- The mutable state of a `Film` that the scheduling and promotion
operations touch: the screenings list and the `_promotions` dict keyed by
`ScreeningTime` value equality. -/
structure FilmState where
  duration : Int
  screenings : List ScreeningTime
  promotions : List (ScreeningTime × CinemaPromotion)
  deriving DecidableEq, Repr

/-- `Film.add_screening` on the film state: `_promotions` is untouched. -/
def FilmState.addScreening (f : FilmState) (s : ScreeningTime) :
    Except CinemaError FilmState :=
  match Cinema.addScreening f.duration f.screenings s with
  | .ok screenings' => .ok { f with screenings := screenings' }
  | .error e => .error e

/-- `Film.remove_screening`: `ValidationError` when absent, otherwise
`list.remove` (first occurrence); `_promotions` is untouched. -/
def FilmState.removeScreening (f : FilmState) (s : ScreeningTime) :
    Except CinemaError FilmState :=
  if s ∈ f.screenings then
    .ok { f with screenings := f.screenings.erase s }
  else .error .validationError

/-- `Film.apply_promotion`: `ValueError` when the screening is unknown,
already has a promotion, or the promotion is expired (`now` is the ambient
current instant). -/
def FilmState.applyPromotion (f : FilmState) (now : Int)
    (s : ScreeningTime) (p : CinemaPromotion) :
    Except CinemaError FilmState :=
  if s ∉ f.screenings then .error .valueError
  else if (dictGet s f.promotions).isSome then .error .valueError
  else if p.expiresAt < now then .error .valueError
  else .ok { f with promotions := dictSet s p f.promotions }

/-- `Film.get_promotion`: `ValueError` when the screening is not in the
film's list, otherwise `self._promotions.get(screening)`. -/
def FilmState.getPromotion (f : FilmState) (s : ScreeningTime) :
    Except CinemaError (Option CinemaPromotion) :=
  if s ∈ f.screenings then .ok (dictGet s f.promotions)
  else .error .valueError

/-! ### Hall (`src/zaliczeniowy/src/cinema.py`) -/

/-- A cinema hall: number, fixed capacity, and its own available-seats
counter. -/
structure Hall where
  number : Int
  capacity : Int
  available_seats : Int
  deriving DecidableEq, Repr

/-- `Hall.__init__`: `ValidationError` when the capacity is not positive;
`available_seats` starts at `capacity`. -/
def Hall.make (number capacity : Int) : Except CinemaError Hall :=
  if capacity ≤ 0 then .error .validationError
  else .ok ⟨number, capacity, capacity⟩

/-- `Hall.reserve_seats`. -/
def Hall.reserveSeats (h : Hall) (seats : Int) : Except CinemaError Hall :=
  if seats ≤ 0 then .error .validationError
  else if seats > h.available_seats then .error .reservationError
  else .ok { h with available_seats := h.available_seats - seats }

/-- `Hall.cancel_reservation`. -/
def Hall.cancelReservation (h : Hall) (seats : Int) :
    Except CinemaError Hall :=
  if seats ≤ 0 then .error .validationError
  else if seats > h.capacity - h.available_seats then
    .error .reservationError
  else .ok { h with available_seats := h.available_seats + seats }

/-! ### Cinema: aggregate state and the reservation ledger -/

/-- The `(hall, screening.start.isoformat())` ledger key; `isoformat` is
injective on instants, so the instant itself stands for the string. -/
abbrev ResKey := Int × Int

/-- `Cinema` state: the `_halls` dict keyed by hall number and the
`_reservations` dict keyed by `(hall, start)`. -/
structure CinemaState where
  name : String
  halls : List (Int × Hall)
  reservations : List (ResKey × Int)
  deriving DecidableEq, Repr

/-- `Cinema.__init__(name, halls)`: the dict comprehension
`{h.number: h for h in halls}` in list order, and an empty ledger. -/
def CinemaState.make (name : String) (halls : List Hall) : CinemaState :=
  { name := name
    halls := halls.foldl (fun d h => dictSet h.number h d) []
    reservations := [] }

/-- `Cinema.add_hall(hall, overwrite=...)`. -/
def CinemaState.addHall (c : CinemaState) (h : Hall) (overwrite : Bool) :
    Except CinemaError CinemaState :=
  if ¬overwrite ∧ (dictGet h.number c.halls).isSome then
    .error .validationError
  else .ok { c with halls := dictSet h.number h c.halls }

/-- `Cinema.remove_hall(hall)`. -/
def CinemaState.removeHall (c : CinemaState) (h : Hall) :
    Except CinemaError CinemaState :=
  if (dictGet h.number c.halls).isSome then
    .ok { c with halls := dictDel h.number c.halls }
  else .error .validationError

/-- `Cinema._validate_reservation_request(film, screening, seats)`: the
film is represented by its `screenings` list, the only part the check
reads.  Returns the exception raised, if any. -/
def CinemaState.validateReservationRequest (c : CinemaState)
    (filmScreenings : List ScreeningTime) (s : ScreeningTime)
    (seats : Int) : Option CinemaError :=
  if seats ≤ 0 then some .validationError
  else if s ∉ filmScreenings then some .reservationError
  else
    match dictGet s.hall c.halls with
    | none => some .reservationError
    | some hall =>
      let alreadyReserved :=
        (dictGet (s.hall, s.start) c.reservations).getD 0
      if seats > hall.capacity - alreadyReserved then
        some .reservationError
      else none

/-- `Cinema.reserve(film, screening, seats, commit=...)`: validate, then
if `commit` add `seats` to the ledger entry for `(hall, start)`. -/
def CinemaState.reserve (c : CinemaState)
    (filmScreenings : List ScreeningTime) (s : ScreeningTime)
    (seats : Int) (commit : Bool) : Except CinemaError CinemaState :=
  match c.validateReservationRequest filmScreenings s seats with
  | some e => .error e
  | none =>
    if commit then
      let key : ResKey := (s.hall, s.start)
      let alreadyReserved := (dictGet key c.reservations).getD 0
      .ok { c with reservations :=
              dictSet key (alreadyReserved + seats) c.reservations }
    else .ok c

/-- `Cinema._validate_cancellation_request(film, screening, seats)`. -/
def CinemaState.validateCancellationRequest (c : CinemaState)
    (filmScreenings : List ScreeningTime) (s : ScreeningTime)
    (seats : Int) : Option CinemaError :=
  if seats ≤ 0 then some .validationError
  else if s ∉ filmScreenings then some .reservationError
  else
    match dictGet s.hall c.halls with
    | none => some .reservationError
    | some _ =>
      let alreadyReserved :=
        (dictGet (s.hall, s.start) c.reservations).getD 0
      if seats > alreadyReserved then some .reservationError
      else none

/-- `Cinema.cancel_reservation(film, screening, seats)`: validate, then
set the ledger entry to `already_reserved - seats`. -/
def CinemaState.cancelReservation (c : CinemaState)
    (filmScreenings : List ScreeningTime) (s : ScreeningTime)
    (seats : Int) : Except CinemaError CinemaState :=
  match c.validateCancellationRequest filmScreenings s seats with
  | some e => .error e
  | none =>
    let key : ResKey := (s.hall, s.start)
    let alreadyReserved := (dictGet key c.reservations).getD 0
    .ok { c with reservations :=
            dictSet key (alreadyReserved - seats) c.reservations }

/-- `Cinema.available_seats(screening)`: `KeyError` (modelled as `none`)
when the screening's hall is not registered, otherwise
`hall.capacity - reservations.get((hall, start), 0)`. -/
def CinemaState.availableSeats (c : CinemaState) (s : ScreeningTime) :
    Option Int :=
  (dictGet s.hall c.halls).map
    (fun hall =>
      hall.capacity - (dictGet (s.hall, s.start) c.reservations).getD 0)

/-! ### Persistence (`Cinema.save` / `Cinema.load`)

The JSON value written by `save` and parsed back by `load` is modelled by
the `Json` inductive.  The instant stored under `"screening_start"` is the
`isoformat` string of the start, modelled by the instant itself (`int`
constructor), since `load` uses it only verbatim as a ledger key.  The
integer-valued fields of the snapshot are read back as integers; a
snapshot holding a non-integer there is modelled as the `TypeError` Python
raises when the value reaches an integer context. -/

inductive Json where
  | null
  | bool (b : Bool)
  | int (n : Int)
  | str (s : String)
  | arr (elems : List Json)
  | obj (fields : List (String × Json))

/-- `data[k]` on a parsed JSON value: `KeyError` when the object lacks the
key, `TypeError` when `data` is not an object. -/
def Json.field (j : Json) (k : String) : Except CinemaError Json :=
  match j with
  | .obj fields =>
    match dictGet k fields with
    | some v => .ok v
    | none => .error .keyError
  | _ => .error .typeError

/-- `data.get(k, default)` on a parsed JSON object. -/
def Json.fieldD (j : Json) (k : String) (default : Json) : Json :=
  match j with
  | .obj fields => (dictGet k fields).getD default
  | _ => default

/-- Iterating a JSON value as a list: `TypeError` when not an array. -/
def Json.asArr (j : Json) : Except CinemaError (List Json) :=
  match j with
  | .arr elems => .ok elems
  | _ => .error .typeError

/-- A JSON value in an integer context. -/
def Json.asInt (j : Json) : Except CinemaError Int :=
  match j with
  | .int n => .ok n
  | _ => .error .typeError

/-- A JSON value in a string context. -/
def Json.asStr (j : Json) : Except CinemaError String :=
  match j with
  | .str s => .ok s
  | _ => .error .typeError

/-- One element of the `"halls"` list of the `save` payload. -/
def encodeHall (h : Hall) : Json :=
  .obj [("number", .int h.number),
        ("capacity", .int h.capacity),
        ("available_seats", .int h.available_seats)]

/-- One element of the `"reservations"` list of the `save` payload. -/
def encodeReservation (e : ResKey × Int) : Json :=
  .obj [("hall", .int e.1.1),
        ("screening_start", .int e.1.2),
        ("reserved", .int e.2)]

/-- The payload object built by `Cinema.save`: `ts` is the wall-clock
timestamp string, which `load` never reads. -/
def CinemaState.saveJson (c : CinemaState) (ts : String) : Json :=
  .obj
    [("meta", .obj [("name", .str c.name), ("timestamp", .str ts)]),
     ("halls", .arr (c.halls.map (fun kh => encodeHall kh.2))),
     ("reservations", .arr (c.reservations.map encodeReservation))]

/-- One iteration of the halls loop of `Cinema.load`:
`Hall(number=h_dict["number"], capacity=h_dict["capacity"])` followed by
`hall.available_seats = h_dict["available_seats"]`.  The `Hall`
constructor's `ValidationError` on a non-positive capacity escapes here
unconverted. -/
def loadHall (hj : Json) : Except CinemaError Hall := do
  let num ← (← hj.field "number").asInt
  let cap ← (← hj.field "capacity").asInt
  if cap ≤ 0 then throw .validationError
  let av ← (← hj.field "available_seats").asInt
  return ⟨num, cap, av⟩

/-- The halls loop of `Cinema.load`, in list order. -/
def loadHalls : List Json → Except CinemaError (List Hall)
  | [] => .ok []
  | hj :: rest => do
    let h ← loadHall hj
    let hs ← loadHalls rest
    return h :: hs

/-- One iteration of the reservations loop of `Cinema.load`:
`key = (rec["hall"], rec["screening_start"]); reserved = rec["reserved"]`. -/
def loadResRec (rj : Json) : Except CinemaError (ResKey × Int) := do
  let hall ← (← rj.field "hall").asInt
  let start ← (← rj.field "screening_start").asInt
  let reserved ← (← rj.field "reserved").asInt
  return ((hall, start), reserved)

/-- The reservations loop of `Cinema.load`, in list order. -/
def loadResRecs : List Json → Except CinemaError (List (ResKey × Int))
  | [] => .ok []
  | rj :: rest => do
    let r ← loadResRec rj
    let rs ← loadResRecs rest
    return r :: rs

/-- The body of the `try` block of `Cinema.load` on the parsed JSON value,
in source order: halls loop, then `data["meta"]["name"]`, then the
`Cinema` constructor, then the reservations loop populating the ledger. -/
def loadBody (data : Json) : Except CinemaError CinemaState := do
  let halls ← loadHalls (← (← data.field "halls").asArr)
  let name ← (← (← data.field "meta").field "name").asStr
  let cinema := CinemaState.make name halls
  let recs ← loadResRecs (← (data.fieldD "reservations" (.arr [])).asArr)
  return { cinema with reservations :=
             recs.foldl (fun d r => dictSet r.1 r.2 d) cinema.reservations }

/-- The `except (OSError, json.JSONDecodeError, KeyError, TypeError,
ValueError)` clause of `Cinema.load`: exactly these classes are converted
to `IOError`; any other exception — in particular `ValidationError`, which
derives directly from `Exception` and not from `ValueError` — propagates
unconverted. -/
def convertLoadExc : CinemaError → CinemaError
  | .osError => .ioError
  | .jsonDecodeError => .ioError
  | .keyError => .ioError
  | .typeError => .ioError
  | .valueError => .ioError
  | e => e

/-- `Cinema.load`: the input is the result of
`json.loads(Path(file_path).read_text())` — either a parsed JSON value, or
the `OSError` of an unreadable file, or the `json.JSONDecodeError` of
malformed text.  Every exception of the `try` block goes through the
conversion clause. -/
def CinemaState.load (input : Except CinemaError Json) :
    Except CinemaError CinemaState :=
  match input >>= loadBody with
  | .ok c => .ok c
  | .error e => .error (convertLoadExc e)

/-! ### Sequences of public Cinema operations

A client session against one `Cinema` instance: halls enter the aggregate
through the validated `Hall` constructor (`Hall.make`), and a raised
exception leaves the aggregate state unchanged (every method validates
before it mutates). -/

/-- One public operation of the `Cinema` API.  `addHall` carries the
arguments of the `Hall` constructor, since every Python `Hall` object
comes from it; `saveLoad` is a `save` to a fresh path followed by a
`load` of that path. -/
inductive CinemaOp where
  | addHall (number capacity : Int) (overwrite : Bool)
  | removeHall (h : Hall)
  | reserve (filmScreenings : List ScreeningTime) (s : ScreeningTime)
      (seats : Int) (commit : Bool)
  | cancelReservation (filmScreenings : List ScreeningTime)
      (s : ScreeningTime) (seats : Int)
  | saveLoad (ts : String)

/-- Whether the operation can replace or drop a registered hall:
`add_hall` with `overwrite=True`, or `remove_hall`. -/
def CinemaOp.replacesHalls : CinemaOp → Bool
  | .addHall _ _ overwrite => overwrite
  | .removeHall _ => true
  | _ => false

/-- Effect of one public operation on the aggregate state; an exception
leaves the state as it was. -/
def CinemaState.step (c : CinemaState) (op : CinemaOp) : CinemaState :=
  match op with
  | .addHall number capacity overwrite =>
    match Hall.make number capacity with
    | .ok h =>
      match c.addHall h overwrite with
      | .ok c' => c'
      | .error _ => c
    | .error _ => c
  | .removeHall h =>
    match c.removeHall h with
    | .ok c' => c'
    | .error _ => c
  | .reserve filmScreenings s seats commit =>
    match c.reserve filmScreenings s seats commit with
    | .ok c' => c'
    | .error _ => c
  | .cancelReservation filmScreenings s seats =>
    match c.cancelReservation filmScreenings s seats with
    | .ok c' => c'
    | .error _ => c
  | .saveLoad ts =>
    match CinemaState.load (.ok (c.saveJson ts)) with
    | .ok c' => c'
    | .error _ => c

/-- Run a session: a freshly constructed `Cinema(name)` followed by a
sequence of public operations. -/
def CinemaState.run (name : String) (ops : List CinemaOp) : CinemaState :=
  ops.foldl CinemaState.step (CinemaState.make name [])

/-! ### Well-formedness predicates used by the invariants -/

/-- The `_halls` dict is well formed: distinct keys, every entry keyed by
its hall's number, every capacity positive (the `Hall` constructor's
validation). -/
def CinemaState.hallsWF (c : CinemaState) : Prop :=
  keysNodup c.halls ∧
    ∀ kh ∈ c.halls, kh.1 = kh.2.number ∧ 0 < kh.2.capacity

/-- The `_reservations` dict has distinct keys and non-negative counts. -/
def CinemaState.ledgerWF (c : CinemaState) : Prop :=
  keysNodup c.reservations ∧ ∀ e ∈ c.reservations, 0 ≤ e.2

/-- Every ledger entry is within the capacity of the (registered) hall
named by its key. -/
def CinemaState.ledgerBounded (c : CinemaState) : Prop :=
  ∀ e ∈ c.reservations,
    ∃ h, dictGet e.1.1 c.halls = some h ∧ e.2 ≤ h.capacity

/-! ## Association-list dictionary lemmas -/

theorem dictGet_dictSet_self {κ ν : Type} [DecidableEq κ] (k : κ) (v : ν)
    (d : List (κ × ν)) : dictGet k (dictSet k v d) = some v := by
  induction d with
  | nil => simp [dictGet, dictSet]
  | cons kv rest ih =>
    by_cases h : kv.1 = k <;> simp [dictGet, dictSet, h, ih]

theorem dictGet_dictSet_ne {κ ν : Type} [DecidableEq κ] {k k' : κ}
    (v : ν) (d : List (κ × ν)) (h : k' ≠ k) :
    dictGet k' (dictSet k v d) = dictGet k' d := by
  have h' : ¬k = k' := Ne.symm h
  induction d with
  | nil => simp [dictGet, dictSet, h']
  | cons kv rest ih =>
    by_cases hk : kv.1 = k
    · simp [dictGet, dictSet, hk, h']
    · simp only [dictSet, if_neg hk, dictGet]
      by_cases hk' : kv.1 = k' <;> simp [hk', ih]

theorem mem_dictSet {κ ν : Type} [DecidableEq κ] {k : κ} {v : ν}
    {d : List (κ × ν)} {e : κ × ν} (he : e ∈ dictSet k v d) :
    e = (k, v) ∨ e ∈ d := by
  induction d with
  | nil => simpa [dictSet] using he
  | cons kv rest ih =>
    by_cases h : kv.1 = k
    · simp only [dictSet, if_pos h, List.mem_cons] at he
      rcases he with he | he
      · exact .inl he
      · exact .inr (List.mem_cons_of_mem _ he)
    · simp only [dictSet, if_neg h, List.mem_cons] at he
      rcases he with he | he
      · exact .inr (he ▸ List.mem_cons_self _ _)
      · rcases ih he with h' | h'
        · exact .inl h'
        · exact .inr (List.mem_cons_of_mem _ h')

theorem dictSet_cons_eq {κ ν : Type} [DecidableEq κ] {k : κ} {v : ν}
    {kv : κ × ν} (rest : List (κ × ν)) (h : kv.1 = k) :
    dictSet k v (kv :: rest) = (k, v) :: rest := by
  simp [dictSet, h]

theorem dictSet_cons_ne {κ ν : Type} [DecidableEq κ] {k : κ} {v : ν}
    {kv : κ × ν} (rest : List (κ × ν)) (h : ¬kv.1 = k) :
    dictSet k v (kv :: rest) = kv :: dictSet k v rest := by
  simp [dictSet, h]

theorem mem_keys_dictSet {κ ν : Type} [DecidableEq κ] {k a : κ} (v : ν)
    (d : List (κ × ν)) :
    a ∈ (dictSet k v d).map Prod.fst ↔ a = k ∨ a ∈ d.map Prod.fst := by
  induction d with
  | nil => simp [dictSet]
  | cons kv rest ih =>
    by_cases h : kv.1 = k
    · rw [dictSet_cons_eq rest h]
      simp only [List.map_cons, List.mem_cons, h]
      tauto
    · rw [dictSet_cons_ne rest h]
      simp only [List.map_cons, List.mem_cons, ih]
      tauto

theorem keysNodup_dictSet {κ ν : Type} [DecidableEq κ] (k : κ) (v : ν)
    {d : List (κ × ν)} (hd : keysNodup d) : keysNodup (dictSet k v d) := by
  induction d with
  | nil => simp [dictSet, keysNodup]
  | cons kv rest ih =>
    obtain ⟨h1, h2⟩ : kv.1 ∉ rest.map Prod.fst ∧ keysNodup rest := by
      have := hd
      simp only [keysNodup, List.map_cons, List.nodup_cons] at this
      exact this
    by_cases h : kv.1 = k
    · rw [dictSet_cons_eq rest h]
      simp only [keysNodup, List.map_cons, List.nodup_cons]
      exact ⟨h ▸ h1, h2⟩
    · rw [dictSet_cons_ne rest h]
      simp only [keysNodup, List.map_cons, List.nodup_cons]
      refine ⟨fun hmem => ?_, ih h2⟩
      rcases (mem_keys_dictSet v rest).mp hmem with he | he
      · exact h he
      · exact h1 he

theorem dictDel_sublist {κ ν : Type} [DecidableEq κ] (k : κ)
    (d : List (κ × ν)) : (dictDel k d).Sublist d := by
  induction d with
  | nil => simp [dictDel]
  | cons kv rest ih =>
    by_cases h : kv.1 = k
    · simp only [dictDel, if_pos h]
      exact List.sublist_cons_self kv rest
    · simp only [dictDel, if_neg h]
      exact ih.cons₂ kv

theorem mem_dictDel {κ ν : Type} [DecidableEq κ] {k : κ}
    {d : List (κ × ν)} {e : κ × ν} (he : e ∈ dictDel k d) : e ∈ d :=
  (dictDel_sublist k d).subset he

theorem keysNodup_dictDel {κ ν : Type} [DecidableEq κ] (k : κ)
    {d : List (κ × ν)} (hd : keysNodup d) : keysNodup (dictDel k d) :=
  List.Nodup.sublist (List.Sublist.map Prod.fst (dictDel_sublist k d)) hd

theorem dictGet_eq_none_iff {κ ν : Type} [DecidableEq κ] (k : κ)
    (d : List (κ × ν)) :
    dictGet k d = none ↔ k ∉ d.map Prod.fst := by
  induction d with
  | nil => simp [dictGet]
  | cons kv rest ih =>
    by_cases h : kv.1 = k
    · simp [dictGet, h]
    · have h' : ¬k = kv.1 := fun e => h e.symm
      simp [dictGet, h, h', ih]

theorem dictGet_mem {κ ν : Type} [DecidableEq κ] {k : κ} {v : ν}
    {d : List (κ × ν)} (h : dictGet k d = some v) : (k, v) ∈ d := by
  induction d with
  | nil => simp [dictGet] at h
  | cons kv rest ih =>
    by_cases hk : kv.1 = k
    · simp only [dictGet, if_pos hk, Option.some.injEq] at h
      have he : kv = (k, v) := by
        obtain ⟨k₀, v₀⟩ := kv
        simp only at hk h
        simp [hk, h]
      exact he ▸ List.mem_cons_self kv rest
    · simp only [dictGet, if_neg hk] at h
      exact List.mem_cons_of_mem _ (ih h)

theorem dictSet_of_not_mem_keys {κ ν : Type} [DecidableEq κ] {k : κ}
    (v : ν) {d : List (κ × ν)} (h : k ∉ d.map Prod.fst) :
    dictSet k v d = d ++ [(k, v)] := by
  induction d with
  | nil => simp [dictSet]
  | cons kv rest ih =>
    simp only [List.map_cons, List.mem_cons, not_or] at h
    have h' : ¬kv.1 = k := fun e => h.1 e.symm
    simp [dictSet, h', ih h.2]

theorem dictGet_append_left {κ ν : Type} [DecidableEq κ] {k : κ} {v : ν}
    {d : List (κ × ν)} (d' : List (κ × ν)) (h : dictGet k d = some v) :
    dictGet k (d ++ d') = some v := by
  induction d with
  | nil => simp [dictGet] at h
  | cons kv rest ih =>
    by_cases hk : kv.1 = k <;>
      simp_all [dictGet, hk]

/-- Re-inserting the entries of a dict with distinct keys, in order, into
a dict that does not contain those keys, reproduces the dict verbatim. -/
theorem foldl_dictSet_of_keysNodup {κ ν : Type} [DecidableEq κ]
    (l : List (κ × ν)) (acc : List (κ × ν))
    (h : keysNodup (acc ++ l)) :
    l.foldl (fun d kv => dictSet kv.1 kv.2 d) acc = acc ++ l := by
  induction l generalizing acc with
  | nil => simp
  | cons kv rest ih =>
    have hnd : (acc.map Prod.fst ++
        (kv.1 :: rest.map Prod.fst)).Nodup := by
      simpa [keysNodup] using h
    have hne : kv.1 ∉ acc.map Prod.fst := by
      obtain ⟨-, -, hdisj⟩ := List.nodup_append.mp hnd
      intro hm
      exact hdisj hm (List.mem_cons_self _ _)
    have hset : dictSet kv.1 kv.2 acc = acc ++ [kv] := by
      simpa using dictSet_of_not_mem_keys kv.2 hne
    have h' : keysNodup ((acc ++ [kv]) ++ rest) := by
      simpa [keysNodup, List.append_assoc] using h
    simpa [hset, List.append_assoc] using ih (acc ++ [kv]) h'

/-! ## C1: `Film.add_screening` hall-conflict detection -/

/-- Intersection of the half-open occupied intervals
`[e.start, e.start+duration)` and `[s.start, s.start+duration)`, written
as the spec words it: some instant lies in both. -/
def intervalsIntersect (duration : Int) (e s : ScreeningTime) : Prop :=
  ∃ t : Int, (e.start ≤ t ∧ t < e.start + duration) ∧
    (s.start ≤ t ∧ t < s.start + duration)

theorem intervalsIntersect_iff (duration : Int) (e s : ScreeningTime) :
    intervalsIntersect duration e s ↔
      e.start < s.start + duration ∧ s.start < e.start + duration := by
  constructor
  · rintro ⟨t, ⟨he1, he2⟩, ⟨hs1, hs2⟩⟩
    omega
  · rintro ⟨h1, h2⟩
    exact ⟨max e.start s.start, by constructor <;> constructor <;> omega⟩

instance (duration : Int) (e s : ScreeningTime) :
    Decidable (intervalsIntersect duration e s) :=
  decidable_of_iff _ (intervalsIntersect_iff duration e s).symm

/-- The source's three-disjunct conflict test is exactly half-open
interval intersection, for a positive duration. -/
theorem conflicts_iff_intersect {duration : Int} (hd : 0 < duration)
    (e s : ScreeningTime) :
    conflicts duration e s ↔
      e.hall = s.hall ∧ intervalsIntersect duration e s := by
  rw [intervalsIntersect_iff]
  unfold conflicts
  constructor <;> rintro ⟨h1, h2⟩ <;> exact ⟨h1, by omega⟩

/-- C1 counterexample: for a screening `s` that is already a member of the
list, the overlap on the right-hand side of the claimed equivalence holds
(it overlaps itself), yet `add_screening` raises `ValidationError`, not
`ScheduleConflictError`. -/
theorem add_screening_conflict_iff_cex :
    ¬(addScreening 120 [⟨0, 1⟩] ⟨0, 1⟩ =
        .error .scheduleConflictError ↔
      ∃ e ∈ ([⟨0, 1⟩] : List ScreeningTime),
        e.hall = (⟨0, 1⟩ : ScreeningTime).hall ∧
          intervalsIntersect 120 e ⟨0, 1⟩) := by
  decide

/-- C1 (amended): for a screening not already present, `add_screening`
raises `ScheduleConflictError` iff some existing screening shares the hall
and the half-open intervals `[start, start+duration)` intersect; an exact
duplicate raises `ValidationError` instead. -/
theorem add_screening_conflict_iff (duration : Int)
    (screenings : List ScreeningTime) (s : ScreeningTime)
    (hd : 0 < duration) (hs : s ∉ screenings) :
    addScreening duration screenings s = .error .scheduleConflictError ↔
      ∃ e ∈ screenings, e.hall = s.hall ∧
        intervalsIntersect duration e s := by
  unfold addScreening
  rw [if_neg hs]
  by_cases hc : screenings.any (fun e => decide (conflicts duration e s))
  · rw [if_pos hc]
    simp only [List.any_eq_true, decide_eq_true_eq] at hc
    obtain ⟨e, he, hconf⟩ := hc
    have := (conflicts_iff_intersect hd e s).mp hconf
    exact ⟨fun _ => ⟨e, he, this⟩, fun _ => rfl⟩
  · rw [if_neg hc]
    simp only [List.any_eq_true, decide_eq_true_eq] at hc
    push_neg at hc
    constructor
    · intro h
      exact absurd h (by simp)
    · rintro ⟨e, he, hh, hi⟩
      exact absurd ((conflicts_iff_intersect hd e s).mpr ⟨hh, hi⟩) (hc e he)

/-- Witness for C1: in hall 1 with duration 120, a second screening 60
minutes after the first conflicts, while a back-to-back one at +120 is
accepted. -/
theorem add_screening_conflict_iff_witness :
    addScreening 120 [⟨0, 1⟩] ⟨60, 1⟩ = .error .scheduleConflictError ∧
      addScreening 120 [⟨0, 1⟩] ⟨120, 1⟩ = .ok [⟨0, 1⟩, ⟨120, 1⟩] := by
  refine ⟨(add_screening_conflict_iff 120 [⟨0, 1⟩] ⟨60, 1⟩ (by decide)
    (by decide)).mpr ⟨⟨0, 1⟩, by simp, rfl, by decide⟩, by decide⟩

/-! ## C6: screenings stay sorted by start time -/

/-- A single successful `add_screening` leaves the list sorted ascending
by start, whatever it was before: the method appends then re-sorts. -/
theorem add_screening_sorted (duration : Int)
    (screenings : List ScreeningTime) (s : ScreeningTime)
    (out : List ScreeningTime)
    (h : addScreening duration screenings s = .ok out) :
    out.Sorted startLE := by
  unfold addScreening at h
  split at h
  · exact absurd h (by simp)
  · split at h
    · exact absurd h (by simp)
    · cases h with
      | refl => exact List.sorted_insertionSort startLE _

/-- C6: after any sequence of successful `add_screening` calls on a fresh
film, the screenings list is sorted ascending by start time. -/
theorem screenings_sorted_after_adds (duration : Int)
    (ss : List ScreeningTime) (out : List ScreeningTime)
    (h : addScreenings duration [] ss = .ok out) :
    out.Sorted startLE := by
  suffices H : ∀ screenings : List ScreeningTime,
      screenings.Sorted startLE →
      addScreenings duration screenings ss = .ok out →
      out.Sorted startLE from
    H [] (List.sorted_nil) h
  clear h
  induction ss with
  | nil =>
    intro screenings hs h
    unfold addScreenings at h
    cases h with
    | refl => exact hs
  | cons s rest ih =>
    intro screenings _ h
    unfold addScreenings at h
    split at h
    · next scr' heq =>
      exact ih scr' (add_screening_sorted duration screenings s scr' heq) h
    · exact absurd h (by simp)

/-- Witness for C6: three screenings inserted out of order come back in
chronological order. -/
theorem screenings_sorted_after_adds_witness :
    addScreenings 120 [] [⟨240, 1⟩, ⟨0, 1⟩, ⟨120, 2⟩] =
        .ok [⟨0, 1⟩, ⟨120, 2⟩, ⟨240, 1⟩] ∧
      ([⟨0, 1⟩, ⟨120, 2⟩, ⟨240, 1⟩] : List ScreeningTime).Sorted startLE :=
  ⟨by decide,
    screenings_sorted_after_adds 120 [⟨240, 1⟩, ⟨0, 1⟩, ⟨120, 2⟩] _
      (by decide)⟩

/-! ## C7: `Hall.reserve_seats` / `Hall.cancel_reservation` -/

/-- C7: both hall counter operations validate `n > 0` first
(`ValidationError`), then the respective bound (`ReservationError`), and
on success adjust `available_seats` by `n`, preserving
`0 ≤ available_seats ≤ capacity`. -/
theorem hall_reserve_cancel_spec (h : Hall) (n : Int)
    (hlo : 0 ≤ h.available_seats) (hhi : h.available_seats ≤ h.capacity) :
    (n ≤ 0 → h.reserveSeats n = .error .validationError ∧
      h.cancelReservation n = .error .validationError) ∧
    (0 < n → h.available_seats < n →
      h.reserveSeats n = .error .reservationError) ∧
    (0 < n → n ≤ h.available_seats →
      h.reserveSeats n = .ok ⟨h.number, h.capacity, h.available_seats - n⟩ ∧
      0 ≤ h.available_seats - n ∧ h.available_seats - n ≤ h.capacity) ∧
    (0 < n → h.capacity - h.available_seats < n →
      h.cancelReservation n = .error .reservationError) ∧
    (0 < n → n ≤ h.capacity - h.available_seats →
      h.cancelReservation n =
        .ok ⟨h.number, h.capacity, h.available_seats + n⟩ ∧
      0 ≤ h.available_seats + n ∧ h.available_seats + n ≤ h.capacity) := by
  refine ⟨fun hn => ⟨?_, ?_⟩, fun hn hlt => ?_, fun hn hle => ?_,
    fun hn hlt => ?_, fun hn hle => ?_⟩
  · unfold Hall.reserveSeats
    rw [if_pos hn]
  · unfold Hall.cancelReservation
    rw [if_pos hn]
  · unfold Hall.reserveSeats
    rw [if_neg (by omega), if_pos (by omega)]
  · unfold Hall.reserveSeats
    rw [if_neg (by omega), if_neg (by omega)]
    exact ⟨rfl, by omega, by omega⟩
  · unfold Hall.cancelReservation
    rw [if_neg (by omega), if_pos (by omega)]
  · unfold Hall.cancelReservation
    rw [if_neg (by omega), if_neg (by omega)]
    exact ⟨rfl, by omega, by omega⟩

/-- Witness for C7: a full hall of 100 accepts a reservation of 50 and a
later cancellation of 50, and rejects a cancellation of 60 after only 50
were reserved. -/
theorem hall_reserve_cancel_spec_witness :
    Hall.reserveSeats ⟨1, 100, 100⟩ 50 = .ok ⟨1, 100, 50⟩ ∧
      Hall.cancelReservation ⟨1, 100, 50⟩ 60 = .error .reservationError ∧
      Hall.cancelReservation ⟨1, 100, 50⟩ 50 = .ok ⟨1, 100, 100⟩ :=
  ⟨((hall_reserve_cancel_spec ⟨1, 100, 100⟩ 50 (by decide)
      (by decide)).2.2.1 (by decide) (by decide)).1,
   (hall_reserve_cancel_spec ⟨1, 100, 50⟩ 60 (by decide)
      (by decide)).2.2.2.1 (by decide) (by decide),
   ((hall_reserve_cancel_spec ⟨1, 100, 50⟩ 50 (by decide)
      (by decide)).2.2.2.2 (by decide) (by decide)).1⟩

/-! ## C4: `Cinema.reserve` check order, error kinds, and frame -/

/-- C4: `reserve` validates in order — non-positive seats
(`ValidationError`), screening not in the film (`ReservationError`), hall
not registered (`ReservationError`), not enough seats left against the
ledger (`ReservationError`) — and an error leaves the session state, and
hence the ledger, unchanged. -/
theorem reserve_check_order (c : CinemaState)
    (film : List ScreeningTime) (s : ScreeningTime) (seats : Int)
    (commit : Bool) :
    (seats ≤ 0 →
      c.reserve film s seats commit = .error .validationError) ∧
    (0 < seats → s ∉ film →
      c.reserve film s seats commit = .error .reservationError) ∧
    (0 < seats → s ∈ film → dictGet s.hall c.halls = none →
      c.reserve film s seats commit = .error .reservationError) ∧
    (∀ hall, 0 < seats → s ∈ film →
      dictGet s.hall c.halls = some hall →
      hall.capacity - (dictGet (s.hall, s.start) c.reservations).getD 0 <
        seats →
      c.reserve film s seats commit = .error .reservationError) ∧
    (∀ e, c.reserve film s seats commit = .error e →
      CinemaState.step c (.reserve film s seats commit) = c) := by
  refine ⟨fun hn => ?_, fun hn hm => ?_, fun hn hm hh => ?_,
    fun hall hn hm hh hcap => ?_, fun e he => ?_⟩
  · unfold CinemaState.reserve CinemaState.validateReservationRequest
    rw [if_pos hn]
  · unfold CinemaState.reserve CinemaState.validateReservationRequest
    rw [if_neg (by omega), if_pos hm]
  · unfold CinemaState.reserve CinemaState.validateReservationRequest
    rw [if_neg (by omega), if_neg (by simpa using hm), hh]
  · unfold CinemaState.reserve CinemaState.validateReservationRequest
    rw [if_neg (by omega), if_neg (by simpa using hm), hh]
    simp only [if_pos (by omega : hall.capacity -
      (dictGet (s.hall, s.start) c.reservations).getD 0 < seats)]
  · show (match c.reserve film s seats commit with
      | .ok c' => c'
      | .error _ => c) = c
    rw [he]

/-- Witness for C4 (the spec's Scenario C): reserving 101 seats against a
100-capacity hall fails with `ReservationError`, and `available_seats`
still reports 100 afterwards. -/
theorem reserve_check_order_witness :
    (CinemaState.run "c" [.addHall 1 100 false]).reserve
        [⟨0, 1⟩] ⟨0, 1⟩ 101 true = .error .reservationError ∧
      (CinemaState.run "c" [.addHall 1 100 false,
          .reserve [⟨0, 1⟩] ⟨0, 1⟩ 101 true]).availableSeats ⟨0, 1⟩ =
        some 100 :=
  ⟨(reserve_check_order (CinemaState.run "c" [.addHall 1 100 false])
      [⟨0, 1⟩] ⟨0, 1⟩ 101 true).2.2.2.1 ⟨1, 100, 100⟩ (by decide)
      (by decide) (by decide) (by decide),
   by decide⟩

/-! ## C8: `commit=False` is a pure dry run -/

/-- C8: `reserve` with `commit=False` performs exactly the validation of
`commit=True` — the same error on the same input — and on success returns
the state unchanged, ledger included. -/
theorem reserve_dry_run (c : CinemaState) (film : List ScreeningTime)
    (s : ScreeningTime) (seats : Int) :
    c.reserve film s seats false =
      (c.reserve film s seats true).map (fun _ => c) := by
  unfold CinemaState.reserve
  cases h : c.validateReservationRequest film s seats <;>
    simp [Except.map]

/-! ## C5: `Cinema.cancel_reservation` -/

/-- C5 counterexample: with a 100-capacity hall, after reserving 50 and
cancelling 30 (20 seats reserved), cancelling 30 more fails with
`ReservationError` — it does not succeed leaving 0 reserved as claimed. -/
theorem cancel_reservation_cex :
    (CinemaState.run "c" [.addHall 1 100 false,
        .reserve [⟨0, 1⟩] ⟨0, 1⟩ 50 true,
        .cancelReservation [⟨0, 1⟩] ⟨0, 1⟩ 30]).cancelReservation
      [⟨0, 1⟩] ⟨0, 1⟩ 30 = .error .reservationError := by
  decide

/-- C5 (amended): for positive seats, a screening of the film whose hall
is registered, `cancel_reservation` fails with `ReservationError` when
`seats` exceeds the currently reserved count for the `(hall, start)` key,
and otherwise decrements that ledger entry by `seats`. -/
theorem cancel_reservation_spec (c : CinemaState)
    (film : List ScreeningTime) (s : ScreeningTime) (seats : Int)
    (hall : Hall) (hpos : 0 < seats) (hmem : s ∈ film)
    (hhall : dictGet s.hall c.halls = some hall) :
    ((dictGet (s.hall, s.start) c.reservations).getD 0 < seats →
      c.cancelReservation film s seats = .error .reservationError) ∧
    (seats ≤ (dictGet (s.hall, s.start) c.reservations).getD 0 →
      c.cancelReservation film s seats =
        .ok ⟨c.name, c.halls, dictSet (s.hall, s.start)
          ((dictGet (s.hall, s.start) c.reservations).getD 0 - seats)
          c.reservations⟩) := by
  constructor <;> intro hcnt <;>
    unfold CinemaState.cancelReservation
      CinemaState.validateCancellationRequest <;>
    rw [if_neg (by omega), if_neg (by simpa using hmem), hhall]
  · rw [if_pos (by omega)]
  · rw [if_neg (by omega)]

/-- Witness for C5: reserve 50 of 100, cancel 30 (20 reserved, 80
available), then cancelling 20 succeeds leaving 0 reserved, and cancelling
1 more fails. -/
theorem cancel_reservation_spec_witness :
    (CinemaState.run "c" [.addHall 1 100 false,
        .reserve [⟨0, 1⟩] ⟨0, 1⟩ 50 true,
        .cancelReservation [⟨0, 1⟩] ⟨0, 1⟩ 30]).availableSeats ⟨0, 1⟩ =
      some 80 ∧
    (CinemaState.run "c" [.addHall 1 100 false,
        .reserve [⟨0, 1⟩] ⟨0, 1⟩ 50 true,
        .cancelReservation [⟨0, 1⟩] ⟨0, 1⟩ 30]).cancelReservation
      [⟨0, 1⟩] ⟨0, 1⟩ 20 =
      .ok ⟨"c", [(1, ⟨1, 100, 100⟩)], [((1, 0), 0)]⟩ ∧
    (CinemaState.run "c" [.addHall 1 100 false,
        .reserve [⟨0, 1⟩] ⟨0, 1⟩ 50 true,
        .cancelReservation [⟨0, 1⟩] ⟨0, 1⟩ 30,
        .cancelReservation [⟨0, 1⟩] ⟨0, 1⟩ 20]).cancelReservation
      [⟨0, 1⟩] ⟨0, 1⟩ 1 = .error .reservationError :=
  ⟨by decide,
   (cancel_reservation_spec _ [⟨0, 1⟩] ⟨0, 1⟩ 20 ⟨1, 100, 100⟩
      (by decide) (by decide) (by decide)).2 (by decide),
   (cancel_reservation_spec _ [⟨0, 1⟩] ⟨0, 1⟩ 1 ⟨1, 100, 100⟩
      (by decide) (by decide) (by decide)).1 (by decide)⟩

/-! ## C9: `remove_screening` leaves a dangling promotion -/

/-- C9: removing a screening that has a promotion leaves the promotion
map untouched; `get_promotion` on the removed screening then fails, and
re-adding an equal screening makes the stale promotion reachable again. -/
theorem remove_screening_keeps_promotion (f : FilmState)
    (s : ScreeningTime) (p : CinemaPromotion) (hs : s ∈ f.screenings)
    (hp : dictGet s f.promotions = some p)
    (hc : f.screenings.count s ≤ 1) :
    ∃ f', f.removeScreening s = .ok f' ∧
      f'.promotions = f.promotions ∧
      f'.getPromotion s = .error .valueError ∧
      ∀ f'', f'.addScreening s = .ok f'' →
        f''.getPromotion s = .ok (some p) := by
  refine ⟨{ f with screenings := f.screenings.erase s }, ?_, rfl, ?_, ?_⟩
  · unfold FilmState.removeScreening
    rw [if_pos hs]
  · have hnm : s ∉ f.screenings.erase s := by
      have hcnt := List.count_erase_self s f.screenings
      intro hmem
      have := List.count_pos_iff.mpr hmem
      omega
    unfold FilmState.getPromotion
    rw [if_neg (by simpa using hnm)]
  · intro f'' hadd
    unfold FilmState.addScreening at hadd
    split at hadd
    · next scr' heq =>
      cases hadd with
      | refl =>
        have hmem : s ∈ scr' := by
          unfold addScreening at heq
          split at heq
          · exact absurd heq (by simp)
          · split at heq
            · exact absurd heq (by simp)
            · cases heq with
              | refl =>
                exact (List.perm_insertionSort startLE _).mem_iff.mpr
                  (by simp)
        unfold FilmState.getPromotion
        rw [if_pos (by simpa using hmem)]
        simpa using hp
    · exact absurd hadd (by simp)

/-- Witness for C9: a film with screenings at 0 and 200 in hall 1 and a
promotion on the first; removing and re-adding the first screening makes
the stale promotion reachable again. -/
theorem remove_screening_keeps_promotion_witness :
    ∃ f', FilmState.removeScreening
        ⟨120, [⟨0, 1⟩, ⟨200, 1⟩], [(⟨0, 1⟩, ⟨"promo", 999⟩)]⟩ ⟨0, 1⟩ =
          .ok f' ∧
      f'.promotions = [(⟨0, 1⟩, ⟨"promo", 999⟩)] ∧
      f'.getPromotion ⟨0, 1⟩ = .error .valueError ∧
      ∀ f'', f'.addScreening ⟨0, 1⟩ = .ok f'' →
        f''.getPromotion ⟨0, 1⟩ = .ok (some ⟨"promo", 999⟩) :=
  remove_screening_keeps_promotion
    ⟨120, [⟨0, 1⟩, ⟨200, 1⟩], [(⟨0, 1⟩, ⟨"promo", 999⟩)]⟩ ⟨0, 1⟩
    ⟨"promo", 999⟩ (by decide) (by decide) (by decide)

/-! ## C10: which `load` failures become `IOError` -/

/-- C10: a structurally well-formed snapshot whose hall has capacity 0
makes `load` raise `ValidationError` (from the `Hall` constructor), which
is not in the conversion clause's exception tuple; whereas a missing key,
a type-mismatched field, an unreadable file (`OSError`) and malformed JSON
(`json.JSONDecodeError`) are all converted to `IOError`. -/
theorem load_error_kinds :
    CinemaState.load (.ok (.obj
        [("meta", .obj [("name", .str "c"), ("timestamp", .str "t")]),
         ("halls", .arr [.obj [("number", .int 1), ("capacity", .int 0),
            ("available_seats", .int 0)]]),
         ("reservations", .arr [])])) = .error .validationError ∧
    CinemaState.load (.ok (.obj
        [("meta", .obj [("name", .str "c"), ("timestamp", .str "t")]),
         ("reservations", .arr [])])) = .error .ioError ∧
    CinemaState.load (.ok (.obj
        [("meta", .obj [("name", .str "c"), ("timestamp", .str "t")]),
         ("halls", .arr [.obj [("number", .int 1),
            ("capacity", .str "big"), ("available_seats", .int 5)]]),
         ("reservations", .arr [])])) = .error .ioError ∧
    CinemaState.load (.error .osError) = .error .ioError ∧
    CinemaState.load (.error .jsonDecodeError) = .error .ioError :=
  ⟨rfl, rfl, rfl, rfl, rfl⟩

/-! ## Validation characterizations (shared by C2) -/

/-- `_validate_reservation_request` raises nothing exactly when the seats
are positive, the screening belongs to the film, its hall is registered,
and enough seats remain against the ledger. -/
theorem validateReservationRequest_eq_none {c : CinemaState}
    {film : List ScreeningTime} {s : ScreeningTime} {seats : Int} :
    c.validateReservationRequest film s seats = none ↔
      0 < seats ∧ s ∈ film ∧
        ∃ hall, dictGet s.hall c.halls = some hall ∧
          seats ≤ hall.capacity -
            (dictGet (s.hall, s.start) c.reservations).getD 0 := by
  unfold CinemaState.validateReservationRequest
  by_cases h1 : seats ≤ 0
  · rw [if_pos h1]
    constructor
    · intro h
      exact absurd h (by simp)
    · rintro ⟨hp, -⟩
      omega
  · rw [if_neg h1]
    by_cases h2 : s ∈ film
    · rw [if_neg (not_not_intro h2)]
      cases hh : dictGet s.hall c.halls with
      | none =>
        dsimp only
        constructor
        · intro h
          exact absurd h (by simp)
        · rintro ⟨-, -, hall, hsome, -⟩
          exact absurd hsome (by simp)
      | some hall =>
        dsimp only
        by_cases h3 : seats > hall.capacity -
            (dictGet (s.hall, s.start) c.reservations).getD 0
        · rw [if_pos h3]
          constructor
          · intro h
            exact absurd h (by simp)
          · rintro ⟨-, -, hall', hsome', hle⟩
            cases hsome'
            omega
        · rw [if_neg h3]
          exact ⟨fun _ => ⟨by omega, h2, hall, rfl, by omega⟩,
            fun _ => rfl⟩
    · rw [if_pos h2]
      constructor
      · intro h
        exact absurd h (by simp)
      · rintro ⟨-, hm, -⟩
        exact absurd hm h2

/-- `_validate_cancellation_request` raises nothing exactly when the
seats are positive, the screening belongs to the film, its hall is
registered, and no more than the currently reserved count is cancelled. -/
theorem validateCancellationRequest_eq_none {c : CinemaState}
    {film : List ScreeningTime} {s : ScreeningTime} {seats : Int} :
    c.validateCancellationRequest film s seats = none ↔
      0 < seats ∧ s ∈ film ∧
        (dictGet s.hall c.halls).isSome ∧
          seats ≤ (dictGet (s.hall, s.start) c.reservations).getD 0 := by
  unfold CinemaState.validateCancellationRequest
  by_cases h1 : seats ≤ 0
  · rw [if_pos h1]
    constructor
    · intro h
      exact absurd h (by simp)
    · rintro ⟨hp, -⟩
      omega
  · rw [if_neg h1]
    by_cases h2 : s ∈ film
    · rw [if_neg (not_not_intro h2)]
      cases hh : dictGet s.hall c.halls with
      | none =>
        dsimp only
        constructor
        · intro h
          exact absurd h (by simp)
        · rintro ⟨-, -, hsome, -⟩
          exact absurd hsome (by simp)
      | some hall =>
        dsimp only
        by_cases h3 : seats >
            (dictGet (s.hall, s.start) c.reservations).getD 0
        · rw [if_pos h3]
          constructor
          · intro h
            exact absurd h (by simp)
          · rintro ⟨-, -, -, hle⟩
            omega
        · rw [if_neg h3]
          exact ⟨fun _ => ⟨by omega, h2, rfl, by omega⟩, fun _ => rfl⟩
    · rw [if_pos h2]
      constructor
      · intro h
        exact absurd h (by simp)
      · rintro ⟨-, hm, -⟩
        exact absurd hm h2

/-- In a well-formed ledger the reserved count read with default 0 is
non-negative. -/
theorem ledger_getD_nonneg {c : CinemaState} (hl : c.ledgerWF)
    (k : ResKey) : 0 ≤ (dictGet k c.reservations).getD 0 := by
  cases hg : dictGet k c.reservations with
  | none => simp
  | some v => simpa using hl.2 (k, v) (dictGet_mem hg)

/-! ## Inversion of the successful Cinema operations -/

theorem hallMake_ok {n cap : Int} {h : Hall}
    (he : Hall.make n cap = .ok h) : h = ⟨n, cap, cap⟩ ∧ 0 < cap := by
  unfold Hall.make at he
  split at he
  · exact absurd he (by simp)
  · next hc =>
    cases he with
    | refl => exact ⟨rfl, by omega⟩

theorem addHall_ok {c : CinemaState} {h : Hall} {ow : Bool}
    {c' : CinemaState} (he : c.addHall h ow = .ok c') :
    c' = ⟨c.name, dictSet h.number h c.halls, c.reservations⟩ := by
  unfold CinemaState.addHall at he
  split at he
  · exact absurd he (by simp)
  · cases he with
    | refl => rfl

theorem addHall_ok_fresh {c : CinemaState} {h : Hall}
    {c' : CinemaState} (he : c.addHall h false = .ok c') :
    dictGet h.number c.halls = none := by
  unfold CinemaState.addHall at he
  split at he
  · exact absurd he (by simp)
  · next hcond =>
    rw [← Option.not_isSome_iff_eq_none]
    intro hs
    exact hcond (by simpa using hs)

theorem removeHall_ok {c : CinemaState} {h : Hall} {c' : CinemaState}
    (he : c.removeHall h = .ok c') :
    c' = ⟨c.name, dictDel h.number c.halls, c.reservations⟩ := by
  unfold CinemaState.removeHall at he
  split at he
  · cases he with
    | refl => rfl
  · exact absurd he (by simp)

theorem reserve_ok_commit {c : CinemaState} {film : List ScreeningTime}
    {s : ScreeningTime} {seats : Int} {c' : CinemaState}
    (he : c.reserve film s seats true = .ok c') :
    c.validateReservationRequest film s seats = none ∧
      c' = ⟨c.name, c.halls, dictSet (s.hall, s.start)
        ((dictGet (s.hall, s.start) c.reservations).getD 0 + seats)
        c.reservations⟩ := by
  unfold CinemaState.reserve at he
  split at he
  · exact absurd he (by simp)
  · next hv =>
    cases he with
    | refl => exact ⟨hv, rfl⟩

theorem reserve_ok_dry {c : CinemaState} {film : List ScreeningTime}
    {s : ScreeningTime} {seats : Int} {c' : CinemaState}
    (he : c.reserve film s seats false = .ok c') : c' = c := by
  unfold CinemaState.reserve at he
  split at he
  · exact absurd he (by simp)
  · cases he with
    | refl => rfl

theorem cancelReservation_ok {c : CinemaState}
    {film : List ScreeningTime} {s : ScreeningTime} {seats : Int}
    {c' : CinemaState} (he : c.cancelReservation film s seats = .ok c') :
    c.validateCancellationRequest film s seats = none ∧
      c' = ⟨c.name, c.halls, dictSet (s.hall, s.start)
        ((dictGet (s.hall, s.start) c.reservations).getD 0 - seats)
        c.reservations⟩ := by
  unfold CinemaState.cancelReservation at he
  split at he
  · exact absurd he (by simp)
  · next hv =>
    cases he with
    | refl => exact ⟨hv, rfl⟩

/-! ## C3: `load (save c)` round-trip -/

theorem loadHall_encodeHall (h : Hall) (hc : 0 < h.capacity) :
    loadHall (encodeHall h) = .ok h := by
  obtain ⟨num, cap, av⟩ := h
  simp only at hc
  unfold loadHall encodeHall
  simp [Json.field, dictGet, Json.asInt, bind, Except.bind, pure,
    Except.pure, Except.map, throw, throwThe, MonadExceptOf.throw,
    if_neg (by omega : ¬cap ≤ 0)]

/-- The halls loop of `load` over the encoded entries of a well-keyed
halls dict returns exactly the original `Hall` values. -/
theorem loadHalls_encode (l : List (Int × Hall))
    (hc : ∀ kh ∈ l, 0 < kh.2.capacity) :
    loadHalls (l.map (fun kh => encodeHall kh.2)) =
      .ok (l.map (·.2)) := by
  induction l with
  | nil => rfl
  | cons kh rest ih =>
    have hh := loadHall_encodeHall kh.2 (hc kh (List.mem_cons_self kh rest))
    have hr := ih (fun kh' hm => hc kh' (List.mem_cons_of_mem _ hm))
    simp only [List.map_cons, loadHalls]
    rw [hh, hr]
    rfl

theorem loadResRec_encode (e : ResKey × Int) :
    loadResRec (encodeReservation e) = .ok e := rfl

theorem loadResRecs_encode (l : List (ResKey × Int)) :
    loadResRecs (l.map encodeReservation) = .ok l := by
  induction l with
  | nil => rfl
  | cons e rest ih =>
    simp only [List.map_cons, loadResRecs]
    rw [loadResRec_encode, ih]
    rfl

/-- Re-inserting a well-keyed halls dict through the `Cinema` constructor
reproduces it verbatim. -/
theorem make_halls_eq (name : String) (halls : List (Int × Hall))
    (hn : keysNodup halls) (hkeys : ∀ kh ∈ halls, kh.1 = kh.2.number) :
    CinemaState.make name (halls.map (·.2)) =
      ⟨name, halls, []⟩ := by
  unfold CinemaState.make
  simp only [CinemaState.mk.injEq, true_and, and_true]
  rw [List.foldl_map]
  have hext : halls.foldl
      (fun d kh => dictSet (Prod.snd kh).number kh.2 d) [] =
      halls.foldl (fun d kv => dictSet kv.1 kv.2 d) [] := by
    apply List.foldl_ext
    intro d kh hm
    rw [(hkeys kh hm).symm]
  rw [hext]
  exact foldl_dictSet_of_keysNodup halls [] (by simpa [keysNodup] using hn)

/-- The round-trip core: `load` of the payload written by `save` yields
the very same aggregate, for any cinema whose dicts are well keyed and
whose halls passed constructor validation. -/
theorem load_saveJson (c : CinemaState) (ts : String)
    (hn : keysNodup c.halls)
    (hkeys : ∀ kh ∈ c.halls, kh.1 = kh.2.number)
    (hcap : ∀ kh ∈ c.halls, 0 < kh.2.capacity)
    (hr : keysNodup c.reservations) :
    CinemaState.load (.ok (c.saveJson ts)) = .ok c := by
  have hhalls := loadHalls_encode c.halls hcap
  have hmake := make_halls_eq c.name c.halls hn hkeys
  have hres := loadResRecs_encode c.reservations
  have hfold := foldl_dictSet_of_keysNodup c.reservations []
    (by simpa [keysNodup] using hr)
  unfold CinemaState.load loadBody CinemaState.saveJson
  simp [Json.field, Json.fieldD, dictGet, Json.asArr, Json.asStr, bind,
    Except.bind, pure, Except.pure, hhalls, hres, hmake, hfold]

/-- C3: `load (save c))` yields a Cinema with the identical hall set
(numbers, capacities and the persisted `available_seats`) and the
identical reservation ledger, hence identical `available_seats` for every
screening. -/
theorem save_load_roundtrip (c : CinemaState) (ts : String)
    (hn : keysNodup c.halls)
    (hkeys : ∀ kh ∈ c.halls, kh.1 = kh.2.number)
    (hcap : ∀ kh ∈ c.halls, 0 < kh.2.capacity)
    (hr : keysNodup c.reservations) :
    ∃ c', CinemaState.load (.ok (c.saveJson ts)) = .ok c' ∧
      c'.halls = c.halls ∧ c'.reservations = c.reservations ∧
      ∀ s : ScreeningTime, c'.availableSeats s = c.availableSeats s :=
  ⟨c, load_saveJson c ts hn hkeys hcap hr, rfl, rfl, fun _ => rfl⟩

/-- Witness for C3, the spec's Scenario D: one hall of capacity 100 with
`available_seats` 50 and a 50-seat ledger entry survives the round trip
verbatim, and `available_seats` on the loaded instance still reports 50. -/
theorem save_load_roundtrip_witness :
    (∃ c', CinemaState.load (.ok (CinemaState.saveJson
        ⟨"c", [(1, ⟨1, 100, 50⟩)], [((1, 0), 50)]⟩ "t")) = .ok c' ∧
      c'.halls = [(1, ⟨1, 100, 50⟩)] ∧
      c'.reservations = [((1, 0), 50)] ∧
      ∀ s : ScreeningTime, c'.availableSeats s =
        CinemaState.availableSeats
          ⟨"c", [(1, ⟨1, 100, 50⟩)], [((1, 0), 50)]⟩ s) ∧
    CinemaState.availableSeats
      ⟨"c", [(1, ⟨1, 100, 50⟩)], [((1, 0), 50)]⟩ ⟨0, 1⟩ = some 50 :=
  ⟨save_load_roundtrip ⟨"c", [(1, ⟨1, 100, 50⟩)], [((1, 0), 50)]⟩ "t"
      (by decide) (by decide) (by decide) (by decide),
   by decide⟩

/-! ## C2: the ledger invariant over reachable states -/

/-- A `save` immediately followed by a `load` is the identity on any
well-formed aggregate state. -/
theorem step_saveLoad_eq (c : CinemaState) (ts : String)
    (hw : c.hallsWF) (hres : keysNodup c.reservations) :
    c.step (.saveLoad ts) = c := by
  have h := load_saveJson c ts hw.1 (fun kh hm => (hw.2 kh hm).1)
    (fun kh hm => (hw.2 kh hm).2) hres
  show (match CinemaState.load (.ok (c.saveJson ts)) with
    | .ok c' => c'
    | .error _ => c) = c
  rw [h]

/-- Every public operation preserves well-formedness of the halls dict
and of the ledger (distinct keys, non-negative counts). -/
theorem step_WF (c : CinemaState) (op : CinemaOp)
    (hw : c.hallsWF) (hl : c.ledgerWF) :
    (c.step op).hallsWF ∧ (c.step op).ledgerWF := by
  cases op with
  | addHall n cap ow =>
    simp only [CinemaState.step]
    cases hmk : Hall.make n cap with
    | error e => exact ⟨hw, hl⟩
    | ok h =>
      dsimp only
      obtain ⟨rfl, hcap⟩ := hallMake_ok hmk
      cases hadd : c.addHall ⟨n, cap, cap⟩ ow with
      | error e => exact ⟨hw, hl⟩
      | ok c' =>
        dsimp only
        obtain rfl := addHall_ok hadd
        refine ⟨⟨keysNodup_dictSet _ _ hw.1, ?_⟩, hl⟩
        intro kh hm
        rcases mem_dictSet hm with rfl | hm'
        · exact ⟨rfl, hcap⟩
        · exact hw.2 kh hm'
  | removeHall h =>
    simp only [CinemaState.step]
    cases hrm : c.removeHall h with
    | error e => exact ⟨hw, hl⟩
    | ok c' =>
      dsimp only
      obtain rfl := removeHall_ok hrm
      exact ⟨⟨keysNodup_dictDel _ hw.1,
        fun kh hm => hw.2 kh (mem_dictDel hm)⟩, hl⟩
  | reserve film s seats commit =>
    simp only [CinemaState.step]
    cases hr : c.reserve film s seats commit with
    | error e => exact ⟨hw, hl⟩
    | ok c' =>
      dsimp only
      cases commit with
      | false =>
        obtain rfl := reserve_ok_dry hr
        exact ⟨hw, hl⟩
      | true =>
        obtain ⟨hv, rfl⟩ := reserve_ok_commit hr
        have hpos := (validateReservationRequest_eq_none.mp hv).1
        have h0 := ledger_getD_nonneg hl (s.hall, s.start)
        refine ⟨hw, keysNodup_dictSet _ _ hl.1, ?_⟩
        intro e hm
        rcases mem_dictSet hm with rfl | hm'
        · dsimp only
          omega
        · exact hl.2 e hm'
  | cancelReservation film s seats =>
    simp only [CinemaState.step]
    cases hr : c.cancelReservation film s seats with
    | error e => exact ⟨hw, hl⟩
    | ok c' =>
      dsimp only
      obtain ⟨hv, rfl⟩ := cancelReservation_ok hr
      have hle := (validateCancellationRequest_eq_none.mp hv).2.2.2
      refine ⟨hw, keysNodup_dictSet _ _ hl.1, ?_⟩
      intro e hm
      rcases mem_dictSet hm with rfl | hm'
      · dsimp only
        omega
      · exact hl.2 e hm'
  | saveLoad ts =>
    rw [step_saveLoad_eq c ts hw hl.1]
    exact ⟨hw, hl⟩

/-- A public operation that never replaces or drops a hall preserves the
capacity bound of every ledger entry. -/
theorem step_bounded (c : CinemaState) (op : CinemaOp)
    (hrep : op.replacesHalls = false) (hw : c.hallsWF) (hl : c.ledgerWF)
    (hb : c.ledgerBounded) : (c.step op).ledgerBounded := by
  cases op with
  | addHall n cap ow =>
    have how : ow = false := by
      simpa [CinemaOp.replacesHalls] using hrep
    subst how
    simp only [CinemaState.step]
    cases hmk : Hall.make n cap with
    | error e => exact hb
    | ok h =>
      dsimp only
      cases hadd : c.addHall h false with
      | error e => exact hb
      | ok c' =>
        dsimp only
        obtain rfl := addHall_ok hadd
        have happ : dictSet h.number h c.halls =
            c.halls ++ [(h.number, h)] :=
          dictSet_of_not_mem_keys h
            ((dictGet_eq_none_iff _ _).mp (addHall_ok_fresh hadd))
        intro e hm
        obtain ⟨hall, hget, hle⟩ := hb e hm
        refine ⟨hall, ?_, hle⟩
        show dictGet e.1.1 (dictSet h.number h c.halls) = some hall
        rw [happ]
        exact dictGet_append_left _ hget
  | removeHall h =>
    simp [CinemaOp.replacesHalls] at hrep
  | reserve film s seats commit =>
    simp only [CinemaState.step]
    cases hr : c.reserve film s seats commit with
    | error e => exact hb
    | ok c' =>
      dsimp only
      cases commit with
      | false =>
        obtain rfl := reserve_ok_dry hr
        exact hb
      | true =>
        obtain ⟨hv, rfl⟩ := reserve_ok_commit hr
        obtain ⟨hpos, hmem, hall, hget, hle⟩ :=
          validateReservationRequest_eq_none.mp hv
        intro e hm
        rcases mem_dictSet hm with rfl | hm'
        · exact ⟨hall, hget, by dsimp only; omega⟩
        · exact hb e hm'
  | cancelReservation film s seats =>
    simp only [CinemaState.step]
    cases hr : c.cancelReservation film s seats with
    | error e => exact hb
    | ok c' =>
      dsimp only
      obtain ⟨hv, rfl⟩ := cancelReservation_ok hr
      obtain ⟨hpos, hmem, hsome, hle⟩ :=
        validateCancellationRequest_eq_none.mp hv
      intro e hm
      rcases mem_dictSet hm with rfl | hm'
      · cases hres : dictGet (s.hall, s.start) c.reservations with
        | none =>
          rw [hres] at hle
          simp at hle
          omega
        | some v =>
          obtain ⟨hall', hget', hcap'⟩ :=
            hb ((s.hall, s.start), v) (dictGet_mem hres)
          rw [hres] at hle
          exact ⟨hall', hget', by dsimp only; simp only
            [Option.getD_some] at hle ⊢; omega⟩
      · exact hb e hm'
  | saveLoad ts =>
    rw [step_saveLoad_eq c ts hw hl.1]
    exact hb

/-- A freshly constructed `Cinema(name)` is well formed. -/
theorem make_empty_WF (name : String) :
    (CinemaState.make name []).hallsWF ∧
      (CinemaState.make name []).ledgerWF := by
  unfold CinemaState.make
  refine ⟨⟨?_, ?_⟩, ?_, ?_⟩ <;> simp [keysNodup]

/-- Every reachable aggregate state is well formed. -/
theorem run_WF (name : String) (ops : List CinemaOp) :
    (CinemaState.run name ops).hallsWF ∧
      (CinemaState.run name ops).ledgerWF := by
  have H : ∀ (l : List CinemaOp) (c : CinemaState),
      c.hallsWF → c.ledgerWF →
      (l.foldl CinemaState.step c).hallsWF ∧
        (l.foldl CinemaState.step c).ledgerWF := by
    intro l
    induction l with
    | nil => exact fun c hw hl => ⟨hw, hl⟩
    | cons op rest ih =>
      intro c hw hl
      have h := step_WF c op hw hl
      exact ih _ h.1 h.2
  exact H ops _ (make_empty_WF name).1 (make_empty_WF name).2

/-- Every state reachable without hall replacement keeps all ledger
entries within their hall's capacity. -/
theorem run_bounded (name : String) (ops : List CinemaOp)
    (hops : ∀ op ∈ ops, op.replacesHalls = false) :
    (CinemaState.run name ops).ledgerBounded := by
  have H : ∀ (l : List CinemaOp) (c : CinemaState),
      (∀ op ∈ l, op.replacesHalls = false) →
      c.hallsWF → c.ledgerWF → c.ledgerBounded →
      (l.foldl CinemaState.step c).ledgerBounded := by
    intro l
    induction l with
    | nil => exact fun c _ _ _ hb => hb
    | cons op rest ih =>
      intro c hall hw hl hb
      have h := step_WF c op hw hl
      exact ih _ (fun o hm => hall o (List.mem_cons_of_mem _ hm)) h.1 h.2
        (step_bounded c op (hall op (List.mem_cons_self _ _)) hw hl hb)
  refine H ops _ hops (make_empty_WF name).1 (make_empty_WF name).2 ?_
  intro e he
  simp [CinemaState.make] at he

/-- C2 counterexample: register hall 1 with capacity 100, reserve 60
seats, then re-register hall 1 with capacity 50 via `overwrite=True`; the
surviving ledger entry of 60 exceeds the new capacity of 50. -/
theorem reachable_ledger_bounds_cex :
    ¬∀ e ∈ (CinemaState.run "c" [.addHall 1 100 false,
        .reserve [⟨0, 1⟩] ⟨0, 1⟩ 60 true,
        .addHall 1 50 true]).reservations,
      ∀ h, dictGet e.1.1 (CinemaState.run "c" [.addHall 1 100 false,
          .reserve [⟨0, 1⟩] ⟨0, 1⟩ 60 true,
          .addHall 1 50 true]).halls = some h →
        e.2 ≤ h.capacity := by
  decide

/-- C2 (amended): in every reachable state each ledger entry is
non-negative, and provided the session never replaces a hall
(`add_hall` with `overwrite=True` or `remove_hall`), each entry is also
bounded by the capacity of the registered hall named by its key. -/
theorem reachable_ledger_bounds (name : String) (ops : List CinemaOp) :
    (∀ e ∈ (CinemaState.run name ops).reservations, 0 ≤ e.2) ∧
    ((∀ op ∈ ops, op.replacesHalls = false) →
      ∀ e ∈ (CinemaState.run name ops).reservations,
        ∃ h, dictGet e.1.1 (CinemaState.run name ops).halls = some h ∧
          0 ≤ e.2 ∧ e.2 ≤ h.capacity) := by
  refine ⟨fun e he => (run_WF name ops).2.2 e he, fun hops e he => ?_⟩
  obtain ⟨h, hget, hle⟩ := run_bounded name ops hops e he
  exact ⟨h, hget, (run_WF name ops).2.2 e he, hle⟩

/-- Witness for C2: a session that adds a hall, reserves 60 seats, does a
save/load round trip and cancels 10 leaves the single ledger entry of 50
within the hall's capacity of 100. -/
theorem reachable_ledger_bounds_witness :
    ∃ h, dictGet 1 (CinemaState.run "c" [.addHall 1 100 false,
        .reserve [⟨0, 1⟩] ⟨0, 1⟩ 60 true, .saveLoad "t",
        .cancelReservation [⟨0, 1⟩] ⟨0, 1⟩ 10]).halls = some h ∧
      (0 : Int) ≤ 50 ∧ (50 : Int) ≤ h.capacity :=
  (reachable_ledger_bounds "c" [.addHall 1 100 false,
      .reserve [⟨0, 1⟩] ⟨0, 1⟩ 60 true, .saveLoad "t",
      .cancelReservation [⟨0, 1⟩] ⟨0, 1⟩ 10]).2 (by decide)
    ((1, 0), 50) (by decide)

end Cinema
